import Mathlib

/-!
Verification development for the StewardFlow repository.

The frontend workbench component (ui AgentWorkbench) is embedded as a pure
state machine: React state hooks become fields of a state record, the event
handlers become state-transforming functions, and the HTTP requests they fire
become explicit return values.  Text is modelled as lists of characters, and
the nondeterministic uuid generation is modelled by fresh-id parameters
threaded into the handlers.  The backend tool-result subsystem (Externalizer,
ToolResultStore, EventBus delivery) is not among the provided sources; those
parts are modelled from the spec and are marked as such in their doc comments.
-/

namespace StewardFlow

/-- Role of a chat message, from the ChatMessage interface in the ui types. -/
inductive Role where
  | user
  | assistant
deriving DecidableEq, Repr

/-- Kind of a human-in-the-loop message, from the ChatMessage interface. -/
inductive HitlType where
  | confirm
  | request
deriving DecidableEq, Repr

/-- The two workbench tabs of the AgentWorkbench component. -/
inductive Tab where
  | runner
  | browser
deriving DecidableEq, Repr

/-- Token-usage info kept by the workbench, from the tokenInfo state hook. -/
structure TokenInfo where
  prompt_tokens : Nat
  completion_tokens : Nat
  total_tokens : Nat
deriving DecidableEq, Repr

/-- A chat message, from the ChatMessage interface as used by AgentWorkbench
(the component also stores a turnId on assistant messages). -/
structure ChatMessage where
  id : Nat
  role : Role
  content : List Char
  timestamp : Nat
  turnId : Option String
  isHitl : Bool
  hitlType : Option HitlType
deriving DecidableEq, Repr

/-- An execution-trace step as constructed by handleIncomingEvent in the
AgentWorkbench component (the constructing code fills exactly these fields). -/
structure AgentStep where
  type : String
  content : List Char
  tool : Option String
  toolInput : Option String
  timestamp : Nat
deriving DecidableEq, Repr

/-- The PendingConfirm record of the AgentWorkbench component. -/
structure PendingConfirm where
  requestId : String
  prompt : List Char
  toolName : Option String
  args : Option String
  turnId : Option String
deriving DecidableEq, Repr

/-- The data field of a websocket event, with the fields the handlers read.
Absent fields are modelled as none. -/
structure EventData where
  content : Option (List Char) := none
  tool_name : Option String := none
  args : Option String := none
  prompt : Option (List Char) := none
  request_id : Option String := none
  prompt_tokens : Option Nat := none
  completion_tokens : Option Nat := none
  total_tokens : Option Nat := none
deriving DecidableEq, Repr

/-- A websocket event pushed by the backend. The freshId fields model the
values returned by the uuid generator during the handling of this event. -/
structure WsEvent where
  event_type : String
  data : EventData
  timestamp : Nat
  turn_id : Option String := none
  freshId : Nat := 0
  freshId2 : Nat := 0
deriving DecidableEq, Repr

/-- The React state of the AgentWorkbench component, one field per state hook. -/
structure WorkbenchState where
  clientId : String
  goal : List Char
  chatHistory : List ChatMessage
  isRunning : Bool
  steps : List AgentStep
  activeTab : Tab
  currentUrl : List Char
  currentScreenshot : Option (List Char)
  tokenInfo : Option TokenInfo
  pendingConfirm : Option PendingConfirm
  agentId : Option String
deriving DecidableEq, Repr

/-- JavaScript-style fallback on an optional character-list value:
undefined and the empty string are falsy. -/
def jsOrChars (o : Option (List Char)) (d : List Char) : List Char :=
  match o with
  | some v => if v = [] then d else v
  | none => d

/-- JavaScript-style fallback on an optional string: undefined and the empty
string are falsy. -/
def jsOrString (o : Option String) (d : String) : String :=
  match o with
  | some v => if v = "" then d else v
  | none => d

/-- JavaScript truthiness of an optional string-like value: present and
non-empty. -/
def truthyChars (o : Option (List Char)) : Bool :=
  match o with
  | some v => !v.isEmpty
  | none => false

/-- Maximum stored length of a trace-step content, the MAX_LEN constant of
handleIncomingEvent. -/
def MAX_LEN : Nat := 500

/-- Content truncation performed by handleIncomingEvent on trace events:
content longer than MAX_LEN is cut to its first MAX_LEN characters with an
ellipsis of three dots appended. -/
def truncateContent (raw : List Char) : List Char :=
  if raw.length > MAX_LEN then raw.take MAX_LEN ++ ['.', '.', '.'] else raw

/-- The step record appended to the execution trace for a trace event. -/
def traceStep (e : WsEvent) : AgentStep :=
  { type := e.event_type
    content := truncateContent ((e.data.content).getD [])
    tool := e.data.tool_name
    toolInput := e.data.args
    timestamp := e.timestamp }

/-- The predicate used by the findIndex call in the chat-coalescing branch:
the message carries the event turn id and is an assistant message. -/
def matchesTurn (turnId : Option String) (m : ChatMessage) : Bool :=
  m.turnId == turnId && m.role == Role.assistant

/-- Update applied to an already existing assistant message of the same turn:
the event content is appended and the hitl flags are refreshed. -/
def appendFragment (e : WsEvent) (m : ChatMessage) : ChatMessage :=
  { m with
    content := m.content ++ (e.data.content).getD []
    isHitl := if String.startsWith e.event_type ("hitl") then true else m.isHitl
    hitlType :=
      if e.event_type = ("hitl_request") then some HitlType.request else m.hitlType }

/-- The fresh assistant message created for the first fragment of a turn. -/
def fragmentMsg (e : WsEvent) : ChatMessage :=
  { id := e.freshId
    role := Role.assistant
    content := (e.data.content).getD []
    timestamp := e.timestamp
    turnId := e.turn_id
    isHitl := String.startsWith e.event_type ("hitl")
    hitlType :=
      if e.event_type = ("hitl_request") then some HitlType.request else none }

/-- Find-first-match-and-update-else-append, the semantics of the
findIndex-then-set-else-append chat update of the component. -/
def coalesce (p : ChatMessage → Bool) (upd : ChatMessage → ChatMessage)
    (fresh : ChatMessage) : List ChatMessage → List ChatMessage
  | [] => [fresh]
  | m :: rest => if p m then upd m :: rest else m :: coalesce p upd fresh rest

/-- Default confirmation prompt used by the hitl branch of the handler. -/
def defaultPrompt : List Char := String.toList ("Please confirm the action.")

/-- The assistant chat message appended on a hitl confirmation event. -/
def confirmMsg (e : WsEvent) (promptText : List Char) : ChatMessage :=
  { id := e.freshId
    role := Role.assistant
    content := promptText
    timestamp := e.timestamp
    turnId := e.turn_id
    isHitl := true
    hitlType := some HitlType.confirm }

/-- The pending-confirmation record set on a hitl confirmation event; a
missing request id falls back to a fresh uuid. -/
def mkPending (e : WsEvent) : PendingConfirm :=
  { requestId := jsOrString e.data.request_id (Nat.repr e.freshId2)
    prompt := jsOrChars e.data.prompt defaultPrompt
    toolName := e.data.tool_name
    args := e.data.args
    turnId := e.turn_id }

/-- The assistant chat message appended on an error event. -/
def errorMsg (e : WsEvent) : ChatMessage :=
  { id := e.freshId
    role := Role.assistant
    content := (e.data.content).getD []
    timestamp := e.timestamp
    turnId := none
    isHitl := String.startsWith e.event_type ("hitl")
    hitlType := none }

/-- The event types appended to the execution trace by the handler. -/
def traceEventTypes : List String := ["thought", "action", "observation", "final"]

/-- Embedding of handleIncomingEvent from the AgentWorkbench component:
screenshot and token-usage events return early; trace events append a step;
answer and hitl-request events coalesce onto the chat history; a hitl
confirmation event installs a pending confirmation; error events append an
assistant message.  The source uses a sequence of non-exclusive if blocks
whose guards are pairwise disjoint on event types, embedded as a let chain. -/
def handleIncomingEvent (e : WsEvent) (s : WorkbenchState) : WorkbenchState :=
  if e.event_type = ("screenshot") then
    if truthyChars e.data.content then
      { s with currentScreenshot := some ((e.data.content).getD []),
               activeTab := Tab.browser }
    else s
  else if e.event_type = ("token_info") then
    { s with tokenInfo := some {
        prompt_tokens := (e.data.prompt_tokens).getD 0
        completion_tokens := (e.data.completion_tokens).getD 0
        total_tokens := (e.data.total_tokens).getD 0 } }
  else
    let s1 := if e.event_type ∈ traceEventTypes then
        { s with steps := s.steps ++ [traceStep e] }
      else s
    let s2 := if e.event_type = ("answer") ∨ e.event_type = ("hitl_request") then
        { s1 with
          isRunning := if s1.isRunning then false else s1.isRunning
          chatHistory :=
            coalesce (matchesTurn e.turn_id) (appendFragment e) (fragmentMsg e)
              s1.chatHistory }
      else s1
    let s3 := if e.event_type = ("hitl_confirm") then
        { s2 with
          isRunning := false
          pendingConfirm := some (mkPending e)
          chatHistory := s2.chatHistory ++ [confirmMsg e (jsOrChars e.data.prompt defaultPrompt)] }
      else s2
    let s4 := if e.event_type = ("error") then
        { s3 with
          chatHistory := s3.chatHistory ++ [errorMsg e]
          isRunning := false }
      else s3
    s4

/-- An HTTP request fired at the run endpoint by the component. -/
structure RunRequest where
  url : String
  client_id : String
  task : List Char
  agent_id : Option String
deriving DecidableEq, Repr

/-- The single backend endpoint used both for new tasks and for decisions. -/
def runEndpoint : String := "http://localhost:8000/agent/run"

/-- Whitespace test used to model the JavaScript trim call on the goal. -/
def isJsSpace (c : Char) : Bool :=
  c = ' ' || c = '\t' || c = '\n' || c = '\r'

/-- A JavaScript-style trim on a character list. -/
def jsTrim (l : List Char) : List Char :=
  ((l.dropWhile isJsSpace).reverse.dropWhile isJsSpace).reverse

/-- Embedding of handleRun: the guard returns without dispatch when the
trimmed goal is empty, a run is in flight, or a confirmation is pending;
otherwise the user message is appended, the trace is cleared, token info is
reset on a fresh session, and the run request is issued. -/
def handleRun (s : WorkbenchState) (freshMsgId : Nat) (now : Nat) :
    WorkbenchState × Option RunRequest :=
  if jsTrim s.goal = [] ∨ s.isRunning = true ∨ s.pendingConfirm.isSome = true then
    (s, none)
  else
    let userMessage : ChatMessage :=
      { id := freshMsgId, role := Role.user, content := s.goal, timestamp := now,
        turnId := none, isHitl := false, hitlType := none }
    let currentGoal := s.goal
    ({ s with
        chatHistory := s.chatHistory ++ [userMessage]
        steps := []
        tokenInfo := if s.agentId.isNone then none else s.tokenInfo
        isRunning := true
        goal := [] },
     some { url := runEndpoint, client_id := s.clientId,
            task := currentGoal, agent_id := s.agentId })

/-- A confirmation decision of the user. -/
inductive Decision where
  | confirm
  | reject
deriving DecidableEq, Repr

/-- The decision token placed in the task field of the decision request. -/
def decisionToken : Decision → String
  | Decision.confirm => "confirm"
  | Decision.reject => "reject"

/-- The chat label shown for the decision. -/
def decisionLabel : Decision → List Char
  | Decision.confirm => String.toList ("Confirm")
  | Decision.reject => String.toList ("Reject")

/-- Embedding of handleConfirm: without a known agent id, or while running,
nothing happens; otherwise the decision is echoed into the chat, the pending
confirmation is cleared, and the decision request is issued at the run
endpoint with the decision token as the task. -/
def handleConfirm (s : WorkbenchState) (d : Decision) (freshMsgId : Nat) (now : Nat) :
    WorkbenchState × Option RunRequest :=
  if s.agentId.isNone = true ∨ s.isRunning = true then (s, none)
  else
    let userMessage : ChatMessage :=
      { id := freshMsgId, role := Role.user, content := decisionLabel d,
        timestamp := now, turnId := none, isHitl := false, hitlType := none }
    ({ s with
        chatHistory := s.chatHistory ++ [userMessage]
        pendingConfirm := none
        isRunning := true },
     some { url := runEndpoint, client_id := s.clientId,
            task := (decisionToken d).toList, agent_id := s.agentId })

/-- A user-interface action: an incoming websocket event, a task-submission
attempt through handleRun, or a confirmation decision through handleConfirm. -/
inductive UiAction where
  | incoming (e : WsEvent)
  | runAttempt (freshMsgId now : Nat)
  | decision (d : Decision) (freshMsgId now : Nat)
deriving DecidableEq, Repr

/-- Execute one action on the workbench state, returning the possibly issued
run request. Incoming events never issue requests. -/
def execAction (s : WorkbenchState) : UiAction → WorkbenchState × Option RunRequest
  | UiAction.incoming e => (handleIncomingEvent e s, none)
  | UiAction.runAttempt f n => handleRun s f n
  | UiAction.decision d f n => handleConfirm s d f n

/-- Whether an action is a confirmation decision. -/
def isDecisionAction : UiAction → Bool
  | UiAction.decision _ _ _ => true
  | _ => false

/-- Whether an action is a task-submission attempt. -/
def isRunAttempt : UiAction → Bool
  | UiAction.runAttempt _ _ => true
  | _ => false

/-- The state after executing a list of actions in order. -/
def execList (s : WorkbenchState) : List UiAction → WorkbenchState
  | [] => s
  | a :: rest => execList (execAction s a).1 rest

/-- The run requests issued by the task-submission attempts of an action
list (decision requests are not collected). -/
def taskRequests : WorkbenchState → List UiAction → List RunRequest
  | _, [] => []
  | s, a :: rest =>
    let step := execAction s a
    (if isRunAttempt a = true then step.2.toList else []) ++ taskRequests step.1 rest

/-- Fold the incoming-event handler over a list of events. -/
def processEvents (s : WorkbenchState) (events : List WsEvent) : WorkbenchState :=
  events.foldl (fun st e => handleIncomingEvent e st) s

/-- The trace steps produced by a list of events. -/
def stepsOf (events : List WsEvent) : List AgentStep :=
  events.filterMap fun e =>
    if e.event_type ∈ traceEventTypes then some (traceStep e) else none

/-- Modelled from the spec: the backend artifact store (main.py, not among the
provided sources) persists each externalized payload under a path unique for
the lifetime of the store; the spec leaves the exact naming scheme open and
suggests a monotonic counter, so a path is modelled as the store root paired
with the counter value that named the file. -/
structure ArtifactPath where
  root : String
  seq : Nat
deriving DecidableEq, Repr

/-- Modelled from the spec: the ToolResultStore (backend, not among the
provided sources) is append-only artifact storage with a monotonic counter. -/
structure ToolResultStore where
  root : String
  counter : Nat
  artifacts : List (ArtifactPath × List Char)
deriving DecidableEq, Repr

/-- A fresh store over a root directory. -/
def emptyStore (root : String) : ToolResultStore :=
  { root := root, counter := 0, artifacts := [] }

/-- Modelled from the spec: persisting a payload appends one artifact under a
freshly generated path and advances the counter; nothing is overwritten. -/
def persistArtifact (st : ToolResultStore) (payload : List Char) :
    ToolResultStore × ArtifactPath :=
  let path : ArtifactPath := { root := st.root, seq := st.counter }
  ({ st with
      counter := st.counter + 1
      artifacts := st.artifacts ++ [(path, payload)] }, path)

/-- The externalization configuration exposed by the backend config. -/
structure ExternalizeConfig where
  always_externalize_tools : List String
  inline_limit : Nat
  preview_limit : Nat
deriving DecidableEq, Repr

/-- The two observation representations. -/
inductive ObsKind where
  | inline
  | ref
deriving DecidableEq, Repr

/-- Reference part of an observation: artifact path, exact size, preview. -/
structure RefInfo where
  path : ArtifactPath
  byte_size : Nat
  preview : List Char
deriving DecidableEq, Repr

/-- An observation handed back to the reasoning loop. -/
structure Observation where
  kind : ObsKind
  inline_content : Option (List Char)
  ref : Option RefInfo
deriving DecidableEq, Repr

/-- The reference-kind observation built for a persisted payload, with a
preview bounded by the preview limit. -/
def refObservation (cfg : ExternalizeConfig) (payload : List Char)
    (path : ArtifactPath) : Observation :=
  { kind := ObsKind.ref
    inline_content := none
    ref := some { path := path, byte_size := payload.length,
                  preview := payload.take cfg.preview_limit } }

/-- Modelled from the spec: the Externalizer (backend main.py, not among the
provided sources) decides per tool outcome, in order: (a) a tool in the
forced-reference set yields a reference; (b) otherwise a payload no larger
than the inline limit is embedded inline in full; (c) otherwise a reference
is produced, persisting the payload in the store. -/
def externalize (cfg : ExternalizeConfig) (st : ToolResultStore) (tool : String)
    (payload : List Char) : Observation × ToolResultStore :=
  if tool ∈ cfg.always_externalize_tools then
    let out := persistArtifact st payload
    (refObservation cfg payload out.2, out.1)
  else if payload.length ≤ cfg.inline_limit then
    ({ kind := ObsKind.inline, inline_content := some payload, ref := none }, st)
  else
    let out := persistArtifact st payload
    (refObservation cfg payload out.2, out.1)

/-- Run a sequence of tool outcomes through the externalizer. -/
def externalizeAll (cfg : ExternalizeConfig) :
    ToolResultStore → List (String × List Char) → List Observation × ToolResultStore
  | st, [] => ([], st)
  | st, job :: rest =>
    let out := externalize cfg st job.1 job.2
    let more := externalizeAll cfg out.2 rest
    (out.1 :: more.1, more.2)

/-- The artifact paths currently persisted in the store. -/
def artifactPaths (st : ToolResultStore) : List ArtifactPath :=
  st.artifacts.map Prod.fst

/-- Store sanity: every persisted path was named by a past counter value, and
persisted paths are pairwise distinct. Holds for a fresh store and is
preserved by persistence. -/
def StoreWF (st : ToolResultStore) : Prop :=
  (∀ a ∈ st.artifacts, a.1.seq < st.counter ∧ a.1.root = st.root) ∧
    (artifactPaths st).Nodup

/-- Modelled from the spec: one execution step of a trace timeline published
by the EventBus (backend, not among the provided sources). -/
structure ExecutionStep where
  type : String
  turn_id : Option String
  timestamp : Nat
  payload : List Char
deriving DecidableEq, Repr

/-- The timeline of a trace with each step keyed by its per-trace index. -/
def indexedTrace (trace : List ExecutionStep) : List (Nat × ExecutionStep) :=
  trace.enum

/-- Modelled from the spec: EventBus delivery is at-most-once per live
connection with no replay buffer, so across any disconnects and reconnects
the steps a subscriber receives form a subsequence of the trace timeline,
each carrying its per-trace index. -/
def DeliveredTo (trace : List ExecutionStep)
    (delivered : List (Nat × ExecutionStep)) : Prop :=
  delivered.Sublist (indexedTrace trace)

/-- The subscriber records received steps by appending each in arrival order,
as the incoming-event handler does for trace steps. -/
def subscriberRecord (delivered : List (Nat × ExecutionStep)) :
    List (Nat × ExecutionStep) :=
  delivered.foldl (fun acc s => acc ++ [s]) []

/-- Embedding of the socket onclose handler: from the current retry count it
computes the reconnection delay, capped at ten seconds, and the incremented
retry count. -/
def onCloseStep (retryCount : Nat) : Nat × Nat :=
  (min (1000 * 2 ^ retryCount) 10000, retryCount + 1)

/-- The retry count in effect before the given reconnection attempt: it
starts at zero and each close increments it. -/
def retryCountBefore : Nat → Nat
  | 0 => 0
  | n + 1 => (onCloseStep (retryCountBefore n)).2

/-- The delay scheduled before a given reconnection attempt. -/
def reconnectDelay (n : Nat) : Nat :=
  (onCloseStep (retryCountBefore n)).1

/-- A freshly mounted workbench state, used to instantiate theorems at
concrete inputs. -/
def baseState : WorkbenchState :=
  { clientId := "client-1", goal := [], chatHistory := [], isRunning := false,
    steps := [], activeTab := Tab.runner, currentUrl := [],
    currentScreenshot := none, tokenInfo := none, pendingConfirm := none,
    agentId := none }

/-- A workbench state holding an agent id and a typed goal. -/
def agentState : WorkbenchState :=
  { baseState with
      agentId := some ("agent-1")
      goal := String.toList ("task") }

/-- A workbench state with a live pending confirmation. -/
def pendingState : WorkbenchState :=
  { agentState with
      pendingConfirm := some
        { requestId := "req-1", prompt := String.toList ("run it?"),
          toolName := some ("proc_run"), args := none, turnId := some ("t1") } }

/-- The decision request issued from agentState on a confirm decision. -/
def confirmReqEx : RunRequest :=
  { url := runEndpoint, client_id := "client-1",
    task := String.toList ("confirm"), agent_id := some ("agent-1") }

/-- A concrete thought event used to instantiate theorems. -/
def thoughtEvent : WsEvent :=
  { event_type := "thought", data := { content := some ['h', 'i'] },
    timestamp := 3 }

/-- A concrete answer event used to instantiate theorems. -/
def answerEvent : WsEvent :=
  { event_type := "answer", data := { content := some ['o', 'k'] },
    timestamp := 4, turn_id := some ("t1") }

/-- A concrete externalization configuration used to instantiate theorems. -/
def exCfg : ExternalizeConfig :=
  { always_externalize_tools := ["proc_run"], inline_limit := 0,
    preview_limit := 5 }

/-- A concrete two-step trace used to instantiate theorems. -/
def exTrace : List ExecutionStep :=
  [{ type := "thought", turn_id := some ("t1"), timestamp := 1, payload := ['a'] },
   { type := "final", turn_id := some ("t1"), timestamp := 2, payload := ['b'] }]

/-!
Theorems.  Each claim of the specification is settled by one named theorem,
preceded by helper lemmas shared between them.
-/

lemma retryCountBefore_eq (n : Nat) : retryCountBefore n = n := by
  induction n with
  | zero => rfl
  | succ k ih => simp [retryCountBefore, onCloseStep, ih]

lemma steps_handleIncomingEvent (e : WsEvent) (s : WorkbenchState) :
    (handleIncomingEvent e s).steps =
      s.steps ++ (if e.event_type ∈ traceEventTypes then [traceStep e] else []) := by
  unfold handleIncomingEvent
  by_cases h1 : e.event_type = ("screenshot")
  · by_cases ht : truthyChars e.data.content = true <;>
      simp [h1, ht, traceEventTypes]
  · by_cases h2 : e.event_type = ("token_info")
    · simp [h1, h2, traceEventTypes]
    · simp only [if_neg h1, if_neg h2]
      by_cases hm : e.event_type ∈ traceEventTypes <;>
        split <;> split <;> split <;> simp [hm]

lemma pending_handleIncomingEvent (e : WsEvent) (s : WorkbenchState) :
    (handleIncomingEvent e s).pendingConfirm =
      if e.event_type = ("hitl_confirm") then some (mkPending e) else s.pendingConfirm := by
  unfold handleIncomingEvent
  by_cases h1 : e.event_type = ("screenshot")
  · have hc : ¬ e.event_type = ("hitl_confirm") := by rw [h1]; decide
    by_cases ht : truthyChars e.data.content = true <;> simp [h1, ht, hc]
  · by_cases h2 : e.event_type = ("token_info")
    · have hc : ¬ e.event_type = ("hitl_confirm") := by rw [h2]; decide
      simp [h1, h2, hc]
    · simp only [if_neg h1, if_neg h2]
      by_cases hc : e.event_type = ("hitl_confirm") <;>
        split <;> split <;> split <;> simp [hc]

lemma chat_handleIncomingEvent_fragment (e : WsEvent) (s : WorkbenchState)
    (h : e.event_type = ("answer") ∨ e.event_type = ("hitl_request")) :
    (handleIncomingEvent e s).chatHistory =
      coalesce (matchesTurn e.turn_id) (appendFragment e) (fragmentMsg e)
        s.chatHistory := by
  have h1 : ¬ e.event_type = ("screenshot") := by rcases h with h | h <;> rw [h] <;> decide
  have h2 : ¬ e.event_type = ("token_info") := by rcases h with h | h <;> rw [h] <;> decide
  have h3 : ¬ e.event_type = ("hitl_confirm") := by rcases h with h | h <;> rw [h] <;> decide
  have h4 : ¬ e.event_type = ("error") := by rcases h with h | h <;> rw [h] <;> decide
  have hm : e.event_type ∉ traceEventTypes := by rcases h with h | h <;> rw [h] <;> decide
  unfold handleIncomingEvent
  simp [h1, h2, h3, h4, hm, h]

lemma truncateContent_le (raw : List Char) : (truncateContent raw).length ≤ 503 := by
  unfold truncateContent MAX_LEN
  split
  · simp only [List.length_append, List.length_take, List.length_cons,
      List.length_nil]
    omega
  · omega

lemma truncateContent_long (raw : List Char) (h : 500 < raw.length) :
    truncateContent raw = raw.take 500 ++ ['.', '.', '.'] := by
  unfold truncateContent MAX_LEN
  rw [if_pos h]

lemma truncateContent_short (raw : List Char) (h : raw.length ≤ 500) :
    truncateContent raw = raw := by
  unfold truncateContent MAX_LEN
  rw [if_neg (by omega)]

lemma processEvents_steps (events : List WsEvent) :
    ∀ s : WorkbenchState, (processEvents s events).steps = s.steps ++ stepsOf events := by
  induction events with
  | nil => intro s; simp [processEvents, stepsOf]
  | cons e rest ih =>
    intro s
    have hfold : processEvents s (e :: rest) = processEvents (handleIncomingEvent e s) rest := rfl
    rw [hfold, ih, steps_handleIncomingEvent]
    by_cases hm : e.event_type ∈ traceEventTypes <;>
      simp [stepsOf, List.filterMap_cons, hm]

/-- C1: for every tool outcome the resulting Observation has kind ref exactly
when the tool is in the forced-reference set or the payload size exceeds the
inline limit; in every other case the kind is inline and the full payload is
embedded. -/
theorem externalize_kind_iff (cfg : ExternalizeConfig) (st : ToolResultStore)
    (tool : String) (payload : List Char) :
    ((externalize cfg st tool payload).1.kind = ObsKind.ref ↔
      tool ∈ cfg.always_externalize_tools ∨ cfg.inline_limit < payload.length) ∧
    ((externalize cfg st tool payload).1.kind = ObsKind.inline ↔
      tool ∉ cfg.always_externalize_tools ∧ payload.length ≤ cfg.inline_limit) ∧
    ((externalize cfg st tool payload).1.inline_content =
      if tool ∉ cfg.always_externalize_tools ∧ payload.length ≤ cfg.inline_limit
      then some payload else none) := by
  by_cases hf : tool ∈ cfg.always_externalize_tools <;>
    by_cases hs : payload.length ≤ cfg.inline_limit <;>
      simp [externalize, refObservation, hf, hs] <;> omega

/-- C7: the delay before the n-th reconnection attempt is the exponential
backoff min (1000 * 2 ^ n) 10000; it is non-decreasing in n and never
exceeds the ten-second cap. -/
theorem reconnect_backoff_capped (n : Nat) :
    reconnectDelay n = min (1000 * 2 ^ n) 10000 ∧
    reconnectDelay n ≤ reconnectDelay (n + 1) ∧
    reconnectDelay n ≤ 10000 := by
  have hd : ∀ m, reconnectDelay m = min (1000 * 2 ^ m) 10000 := by
    intro m
    simp [reconnectDelay, onCloseStep, retryCountBefore_eq]
  refine ⟨hd n, ?_, ?_⟩
  · rw [hd n, hd (n + 1)]
    exact min_le_min
      (Nat.mul_le_mul_left 1000 (Nat.pow_le_pow_right (by decide) (Nat.le_succ n)))
      (le_refl 10000)
  · rw [hd n]
    exact min_le_right _ _

/-- C9: a screenshot event with non-empty content changes only the current
screenshot and the active tab, which switches to the browser view; the chat
history, the execution trace, the pending confirmation and the token info
are unchanged. -/
theorem screenshot_frame_effect (e : WsEvent) (s : WorkbenchState) (c : List Char)
    (h1 : e.event_type = ("screenshot")) (h2 : e.data.content = some c)
    (h3 : c ≠ []) :
    handleIncomingEvent e s =
      { s with currentScreenshot := some c, activeTab := Tab.browser } ∧
    (handleIncomingEvent e s).chatHistory = s.chatHistory ∧
    (handleIncomingEvent e s).steps = s.steps ∧
    (handleIncomingEvent e s).pendingConfirm = s.pendingConfirm ∧
    (handleIncomingEvent e s).tokenInfo = s.tokenInfo := by
  have key : handleIncomingEvent e s =
      { s with currentScreenshot := some c, activeTab := Tab.browser } := by
    have ht : truthyChars (some c) = true := by
      simp [truthyChars, h3]
    unfold handleIncomingEvent
    simp [h1, h2, ht]
  exact ⟨key, by rw [key], by rw [key], by rw [key], by rw [key]⟩

/-- Witness for C9 at a concrete screenshot event. -/
theorem screenshot_frame_effect_witness :
    (handleIncomingEvent
        { event_type := ("screenshot"),
          data := { content := some ['i', 'm', 'g'] }, timestamp := 7 }
        { clientId := "c", goal := [], chatHistory := [], isRunning := true,
          steps := [], activeTab := Tab.runner, currentUrl := [],
          currentScreenshot := none, tokenInfo := none, pendingConfirm := none,
          agentId := none }).currentScreenshot = some ['i', 'm', 'g'] := by
  have h := screenshot_frame_effect
    { event_type := ("screenshot"),
      data := { content := some ['i', 'm', 'g'] }, timestamp := 7 }
    { clientId := "c", goal := [], chatHistory := [], isRunning := true,
      steps := [], activeTab := Tab.runner, currentUrl := [],
      currentScreenshot := none, tokenInfo := none, pendingConfirm := none,
      agentId := none }
    ['i', 'm', 'g'] rfl rfl (by decide)
  rw [h.1]

/-- C8: every trace event appends exactly one step whose stored content is at
most 503 characters; content longer than 500 characters is cut to its first
500 characters with three dots appended, shorter content is stored whole. -/
theorem trace_step_truncated (e : WsEvent) (s : WorkbenchState)
    (h : e.event_type ∈ traceEventTypes) :
    (handleIncomingEvent e s).steps = s.steps ++ [traceStep e] ∧
    (traceStep e).content.length ≤ 503 ∧
    (500 < ((e.data.content).getD []).length →
      (traceStep e).content = ((e.data.content).getD []).take 500 ++ ['.', '.', '.']) ∧
    (((e.data.content).getD []).length ≤ 500 →
      (traceStep e).content = (e.data.content).getD []) := by
  refine ⟨?_, ?_, ?_, ?_⟩
  · rw [steps_handleIncomingEvent, if_pos h]
  · exact truncateContent_le _
  · intro hlong
    exact truncateContent_long _ hlong
  · intro hshort
    exact truncateContent_short _ hshort

/-- Witness for C8 at a concrete thought event. -/
theorem trace_step_truncated_witness :
    (handleIncomingEvent thoughtEvent baseState).steps =
      baseState.steps ++ [traceStep thoughtEvent] :=
  (trace_step_truncated thoughtEvent baseState (by decide)).1

/-- C10: an accepted task submission clears the execution trace before the
run request is issued, so after the submission the step list holds exactly
the steps produced by the events delivered since. -/
theorem run_resets_trace (s : WorkbenchState) (f n : Nat) (r : RunRequest)
    (h : (handleRun s f n).2 = some r) :
    (handleRun s f n).1.steps = [] ∧
    ∀ events : List WsEvent,
      (processEvents (handleRun s f n).1 events).steps = stepsOf events := by
  have hsteps : (handleRun s f n).1.steps = [] := by
    unfold handleRun at h ⊢
    split at h
    · simp at h
    · next hcond =>
      rw [if_neg hcond]
  refine ⟨hsteps, fun events => ?_⟩
  rw [processEvents_steps, hsteps, List.nil_append]

/-- Witness for C10 at a concrete accepted submission. -/
theorem run_resets_trace_witness :
    (handleRun agentState 0 9).1.steps = [] :=
  (run_resets_trace agentState 0 9
    { url := runEndpoint, client_id := "client-1",
      task := String.toList ("task"), agent_id := some ("agent-1") }
    (by decide)).1

/-- C6: every issued confirmation-decision request goes to the same run
endpoint as a normal task submission, with the task field set to exactly the
decision token, the client id, and the existing agent id; when no agent id
is known no decision request is issued. -/
theorem confirm_decision_request :
    (∀ (s : WorkbenchState) (d : Decision) (f n : Nat) (r : RunRequest),
        (handleConfirm s d f n).2 = some r →
        r.url = runEndpoint ∧ r.task = (decisionToken d).toList ∧
        r.client_id = s.clientId ∧ r.agent_id = s.agentId ∧
        s.agentId.isSome = true) ∧
    (∀ (s : WorkbenchState) (f n : Nat) (r : RunRequest),
        (handleRun s f n).2 = some r → r.url = runEndpoint) ∧
    (∀ (s : WorkbenchState) (d : Decision) (f n : Nat),
        s.agentId = none → (handleConfirm s d f n).2 = none) := by
  refine ⟨?_, ?_, ?_⟩
  · intro s d f n r h
    unfold handleConfirm at h
    split at h
    · simp at h
    · next hcond =>
      simp only [Option.some.injEq] at h
      subst h
      push_neg at hcond
      rcases hA : s.agentId with _ | a
      · rw [hA] at hcond
        simp at hcond
      · exact ⟨rfl, rfl, rfl, rfl, rfl⟩
  · intro s f n r h
    unfold handleRun at h
    split at h
    · simp at h
    · simp only [Option.some.injEq] at h
      subst h
      rfl
  · intro s d f n h
    unfold handleConfirm
    rw [if_pos]
    rw [h]
    exact Or.inl rfl

/-- Witness for C6 at a concrete confirm decision. -/
theorem confirm_decision_request_witness :
    confirmReqEx.url = runEndpoint ∧
    confirmReqEx.task = (decisionToken Decision.confirm).toList :=
  ⟨(confirm_decision_request.1 agentState Decision.confirm 0 0 confirmReqEx
      (by decide)).1,
   (confirm_decision_request.1 agentState Decision.confirm 0 0 confirmReqEx
      (by decide)).2.1⟩

lemma artifactPaths_persist (st : ToolResultStore) (payload : List Char) :
    artifactPaths (persistArtifact st payload).1 =
      artifactPaths st ++ [{ root := st.root, seq := st.counter }] := by
  simp [persistArtifact, artifactPaths]

lemma persistArtifact_WF (st : ToolResultStore) (payload : List Char)
    (h : StoreWF st) : StoreWF (persistArtifact st payload).1 := by
  obtain ⟨hlt, hnd⟩ := h
  constructor
  · intro a ha
    simp only [persistArtifact, List.mem_append, List.mem_singleton] at ha
    rcases ha with ha | ha
    · exact ⟨Nat.lt_succ_of_lt (hlt a ha).1, (hlt a ha).2⟩
    · subst ha
      exact ⟨Nat.lt_succ_self _, rfl⟩
  · rw [artifactPaths_persist]
    rw [List.nodup_append]
    refine ⟨hnd, List.nodup_singleton _, ?_⟩
    intro p hp hp1
    simp only [List.mem_singleton] at hp1
    subst hp1
    obtain ⟨a, ha, ha2⟩ := List.mem_map.mp hp
    have := (hlt a ha).1
    rw [ha2] at this
    exact absurd this (lt_irrefl _)

lemma externalize_WF (cfg : ExternalizeConfig) (st : ToolResultStore)
    (tool : String) (payload : List Char) (h : StoreWF st) :
    StoreWF (externalize cfg st tool payload).2 ∧
    st.artifacts <+: (externalize cfg st tool payload).2.artifacts := by
  unfold externalize
  split
  · exact ⟨persistArtifact_WF st payload h, List.prefix_append _ _⟩
  · split
    · exact ⟨h, List.prefix_rfl⟩
    · exact ⟨persistArtifact_WF st payload h, List.prefix_append _ _⟩

lemma externalizeAll_WF (cfg : ExternalizeConfig) :
    ∀ (jobs : List (String × List Char)) (st : ToolResultStore), StoreWF st →
      StoreWF (externalizeAll cfg st jobs).2 ∧
      st.artifacts <+: (externalizeAll cfg st jobs).2.artifacts := by
  intro jobs
  induction jobs with
  | nil => intro st h; exact ⟨h, List.prefix_rfl⟩
  | cons job rest ih =>
    intro st h
    have h1 := externalize_WF cfg st job.1 job.2 h
    have h2 := ih (externalize cfg st job.1 job.2).2 h1.1
    exact ⟨h2.1, h1.2.trans h2.2⟩

/-- C2: across the store's lifetime all persisted artifact paths are pairwise
distinct, including those from repeated calls of the same tool in the same
trace, and the store is append-only, so no artifact is ever overwritten. -/
theorem artifact_paths_distinct (cfg : ExternalizeConfig) (st : ToolResultStore)
    (jobs : List (String × List Char)) (h : StoreWF st) :
    (artifactPaths (externalizeAll cfg st jobs).2).Nodup ∧
    st.artifacts <+: (externalizeAll cfg st jobs).2.artifacts ∧
    StoreWF (externalizeAll cfg st jobs).2 := by
  have hall := externalizeAll_WF cfg jobs st h
  exact ⟨hall.1.2, hall.2, hall.1⟩

/-- Witness for C2: two process runs in one trace yield distinct paths. -/
theorem artifact_paths_distinct_witness :
    (artifactPaths
      (externalizeAll exCfg (emptyStore ("data"))
        [("proc_run", ['a']), ("proc_run", ['b'])]).2).Nodup :=
  (artifact_paths_distinct exCfg (emptyStore ("data"))
    [("proc_run", ['a']), ("proc_run", ['b'])]
    (by refine ⟨?_, ?_⟩ <;> simp [emptyStore, artifactPaths])).1

lemma foldl_append_singleton (l init : List (Nat × ExecutionStep)) :
    l.foldl (fun acc s => acc ++ [s]) init = init ++ l := by
  induction l generalizing init with
  | nil => simp
  | cons a rest ih =>
    simp [List.foldl_cons, ih]

lemma subscriberRecord_eq (delivered : List (Nat × ExecutionStep)) :
    subscriberRecord delivered = delivered := by
  unfold subscriberRecord
  rw [foldl_append_singleton, List.nil_append]

lemma pairwise_fst_lt_indexedTrace (trace : List ExecutionStep) :
    List.Pairwise (fun a b => a.1 < b.1) (indexedTrace trace) := by
  have h := List.pairwise_lt_range trace.length
  rw [← List.enum_map_fst trace] at h
  exact List.pairwise_map.mp h

/-- C3: across any disconnects and reconnects, the steps a subscriber records
within one trace carry strictly increasing per-trace indices, contain no
duplicate, and appear in trace order, so nothing is duplicated or
reordered. -/
theorem delivered_steps_ordered (trace : List ExecutionStep)
    (delivered : List (Nat × ExecutionStep)) (h : DeliveredTo trace delivered) :
    subscriberRecord delivered = delivered ∧
    List.Pairwise (fun a b => a.1 < b.1) (subscriberRecord delivered) ∧
    (subscriberRecord delivered).Nodup ∧
    (subscriberRecord delivered).Sublist (indexedTrace trace) := by
  have heq := subscriberRecord_eq delivered
  have hp : List.Pairwise (fun a b => a.1 < b.1) delivered :=
    (pairwise_fst_lt_indexedTrace trace).sublist h
  have hnd : delivered.Nodup := by
    refine hp.imp ?_
    intro a b hab hab2
    rw [hab2] at hab
    exact absurd hab (lt_irrefl _)
  rw [heq]
  exact ⟨rfl, hp, hnd, h⟩

/-- Witness for C3 on a concrete trace with a gap in delivery. -/
theorem delivered_steps_ordered_witness :
    (subscriberRecord (indexedTrace exTrace)).Nodup :=
  (delivered_steps_ordered exTrace (indexedTrace exTrace)
    (List.Sublist.refl _)).2.2.1

lemma coalesce_count (p : ChatMessage → Bool) (upd : ChatMessage → ChatMessage)
    (fresh : ChatMessage) (hf : p fresh = true) (hu : ∀ m, p (upd m) = p m) :
    ∀ l : List ChatMessage,
      (coalesce p upd fresh l).countP p = max 1 (l.countP p) := by
  intro l
  induction l with
  | nil => simp [coalesce, List.countP_cons, hf]
  | cons m rest ih =>
    rcases hm : p m with _ | _
    · simp [coalesce, hm, List.countP_cons, ih]
    · simp [coalesce, hm, List.countP_cons, hu]

lemma coalesce_no_match (p : ChatMessage → Bool) (upd : ChatMessage → ChatMessage)
    (fresh : ChatMessage) :
    ∀ l : List ChatMessage, l.countP p = 0 →
      coalesce p upd fresh l = l ++ [fresh] := by
  intro l
  induction l with
  | nil => intro _; rfl
  | cons m rest ih =>
    intro h
    rw [List.countP_cons] at h
    rcases hm : p m with _ | _
    · rw [hm] at h
      simp only [Bool.false_eq_true, if_false, Nat.add_zero] at h
      simp [coalesce, hm, ih h]
    · rw [hm] at h
      simp at h

lemma coalesce_match (p : ChatMessage → Bool) (upd : ChatMessage → ChatMessage)
    (fresh : ChatMessage) :
    ∀ l : List ChatMessage, l.countP p ≠ 0 →
      ∃ pre m suf, l = pre ++ m :: suf ∧ (∀ x ∈ pre, p x = false) ∧
        p m = true ∧ coalesce p upd fresh l = pre ++ upd m :: suf := by
  intro l
  induction l with
  | nil => intro h; simp [List.countP_nil] at h
  | cons a rest ih =>
    intro h
    by_cases ha : p a = true
    · refine ⟨[], a, rest, rfl, by simp, ha, ?_⟩
      simp [coalesce, ha]
    · have ha' : p a = false := by
        revert ha
        cases p a <;> simp
      have hrest : rest.countP p ≠ 0 := by
        rw [List.countP_cons, ha'] at h
        simpa using h
      obtain ⟨pre, m, suf, h1, h2, h3, h4⟩ := ih hrest
      refine ⟨a :: pre, m, suf, by rw [h1]; rfl, ?_, h3, ?_⟩
      · intro x hx
        rcases List.mem_cons.mp hx with hx | hx
        · rw [hx]; exact ha'
        · exact h2 x hx
      · simp only [coalesce, ha', if_false, Bool.false_eq_true, h4,
          List.cons_append]

/-- C5: for an answer or hitl-request event, an already existing assistant
message of the same turn receives the appended content and the chat length
does not change; otherwise exactly one new assistant message carrying that
turn id is appended, so these events create at most one assistant message
per turn id. -/
theorem answer_coalesces_per_turn (e : WsEvent) (s : WorkbenchState)
    (h : e.event_type = ("answer") ∨ e.event_type = ("hitl_request")) :
    ((handleIncomingEvent e s).chatHistory.countP (matchesTurn e.turn_id) =
      max 1 (s.chatHistory.countP (matchesTurn e.turn_id))) ∧
    (s.chatHistory.countP (matchesTurn e.turn_id) = 0 →
      (handleIncomingEvent e s).chatHistory = s.chatHistory ++ [fragmentMsg e] ∧
      (fragmentMsg e).role = Role.assistant ∧ (fragmentMsg e).turnId = e.turn_id) ∧
    (s.chatHistory.countP (matchesTurn e.turn_id) ≠ 0 →
      (handleIncomingEvent e s).chatHistory.length = s.chatHistory.length ∧
      ∃ pre m suf, s.chatHistory = pre ++ m :: suf ∧
        (∀ x ∈ pre, matchesTurn e.turn_id x = false) ∧
        matchesTurn e.turn_id m = true ∧
        (handleIncomingEvent e s).chatHistory = pre ++ appendFragment e m :: suf ∧
        (appendFragment e m).content = m.content ++ (e.data.content).getD []) := by
  have hchat := chat_handleIncomingEvent_fragment e s h
  have hf : matchesTurn e.turn_id (fragmentMsg e) = true := by
    simp [matchesTurn, fragmentMsg]
  have hu : ∀ m, matchesTurn e.turn_id (appendFragment e m) = matchesTurn e.turn_id m :=
    fun m => rfl
  refine ⟨?_, ?_, ?_⟩
  · rw [hchat]
    exact coalesce_count _ _ _ hf hu _
  · intro h0
    refine ⟨?_, rfl, rfl⟩
    rw [hchat]
    exact coalesce_no_match _ _ _ _ h0
  · intro hne
    obtain ⟨pre, m, suf, h1, h2, h3, h4⟩ :=
      coalesce_match (matchesTurn e.turn_id) (appendFragment e) (fragmentMsg e)
        s.chatHistory hne
    refine ⟨?_, pre, m, suf, h1, h2, h3, by rw [hchat, h4], rfl⟩
    rw [hchat, h4, h1]
    simp

/-- Witness for C5: a first answer fragment appends one assistant message. -/
theorem answer_coalesces_per_turn_witness :
    (handleIncomingEvent answerEvent baseState).chatHistory =
      baseState.chatHistory ++ [fragmentMsg answerEvent] :=
  ((answer_coalesces_per_turn answerEvent baseState (Or.inl rfl)).2.1
    (by decide)).1

lemma pending_isSome_handleIncomingEvent (e : WsEvent) (s : WorkbenchState)
    (h : s.pendingConfirm.isSome = true) :
    (handleIncomingEvent e s).pendingConfirm.isSome = true := by
  rw [pending_handleIncomingEvent]
  split
  · rfl
  · exact h

lemma handleRun_blocked (s : WorkbenchState) (f n : Nat)
    (h : s.pendingConfirm.isSome = true) : handleRun s f n = (s, none) := by
  unfold handleRun
  rw [if_pos (Or.inr (Or.inr h))]

/-- C4: while a pending confirmation is live, any sequence of task
submissions and incoming events issues no run request and leaves a pending
confirmation live; a hitl confirmation event is what installs it, and only a
dispatched confirm or reject decision clears it. -/
theorem pending_confirmation_blocks_dispatch :
    (∀ (s : WorkbenchState) (actions : List UiAction),
        s.pendingConfirm.isSome = true →
        (∀ a ∈ actions, isDecisionAction a = false) →
        taskRequests s actions = [] ∧
        (execList s actions).pendingConfirm.isSome = true) ∧
    (∀ (s : WorkbenchState) (f n : Nat),
        s.pendingConfirm.isSome = true → handleRun s f n = (s, none)) ∧
    (∀ (e : WsEvent) (s : WorkbenchState),
        e.event_type = ("hitl_confirm") →
        (handleIncomingEvent e s).pendingConfirm = some (mkPending e)) ∧
    (∀ (s : WorkbenchState) (d : Decision) (f n : Nat) (r : RunRequest),
        (handleConfirm s d f n).2 = some r →
        (handleConfirm s d f n).1.pendingConfirm = none) := by
  refine ⟨?_, ?_, ?_, ?_⟩
  · intro s actions
    induction actions generalizing s with
    | nil => intro h _; exact ⟨rfl, h⟩
    | cons a rest ih =>
      intro h hnd
      have hrest : ∀ x ∈ rest, isDecisionAction x = false :=
        fun x hx => hnd x (List.mem_cons_of_mem a hx)
      cases a with
      | incoming e =>
        have hrec := ih (handleIncomingEvent e s)
          (pending_isSome_handleIncomingEvent e s h) hrest
        exact ⟨by simpa [taskRequests, execAction, isRunAttempt] using hrec.1,
               by simpa [execList, execAction] using hrec.2⟩
      | runAttempt f n =>
        have hrun := handleRun_blocked s f n h
        have hrec := ih s h hrest
        constructor
        · show (if isRunAttempt (UiAction.runAttempt f n) = true
              then (execAction s (UiAction.runAttempt f n)).2.toList else []) ++
              taskRequests (execAction s (UiAction.runAttempt f n)).1 rest = []
          simp [execAction, hrun, isRunAttempt, hrec.1]
        · show (execList (execAction s (UiAction.runAttempt f n)).1 rest).pendingConfirm.isSome = true
          simp [execAction, hrun, hrec.2]
      | decision d f n =>
        have := hnd (UiAction.decision d f n) (List.mem_cons_self _ _)
        simp [isDecisionAction] at this
  · exact handleRun_blocked
  · intro e s he
    rw [pending_handleIncomingEvent, if_pos he]
  · intro s d f n r hr
    unfold handleConfirm at hr ⊢
    split at hr
    · simp at hr
    · next hcond =>
      rw [if_neg hcond]

/-- Witness for C4: with a live pending confirmation, a run attempt and an
incoming event dispatch nothing and keep the confirmation pending. -/
theorem pending_confirmation_blocks_dispatch_witness :
    taskRequests pendingState
      [UiAction.runAttempt 0 0, UiAction.incoming thoughtEvent] = [] :=
  (pending_confirmation_blocks_dispatch.1 pendingState
    [UiAction.runAttempt 0 0, UiAction.incoming thoughtEvent]
    (by decide) (by decide)).1

end StewardFlow
